import Mathlib

/-!
Verification of the span-metric compiler (`pkg/metrics/span_metric.go`):
the UPQL expression compiler, the WHERE-condition fold, the materialized
view definition builder, and the backtracking token stream / lexer.

External collaborators (column resolution, condition rendering, parsers,
the aggregate-column classifier) are modelled as function parameters, as
they live outside the compiled slice.
-/

set_option maxHeartbeats 1000000

/-- Typed compile errors, one constructor per `fmt.Errorf` site in
`span_metric.go`:
`malformedValue` = "can't parse metric value: %q",
`unsupportedValueAST` = "unsupported metric value AST: %T",
`unsupportedExpr` = "unsupported span metric expr: %T",
`malformedWhere` = "can't parse metric where: %q",
`aggInFilter` = "can't filter by agg columns: %q",
`unsupportedInstrument` = "unsupported instrument: %q". -/
inductive Err where
  | malformedValue (v : String)
  | unsupportedValueAST
  | unsupportedExpr
  | malformedWhere (w : String)
  | aggInFilter (w : String)
  | unsupportedInstrument (i : String)
deriving DecidableEq, Repr

/-- `const spanMetricMinutes = 1` in `span_metric.go`. -/
def spanMetricMinutes : Nat := 1

/-- The argument of `tracing.AppendCHColumn`: `tracingupql.Name{FuncName, AttrKey}`. -/
structure CHName where
  funcName : String
  attrKey : String
deriving DecidableEq, Repr

/-- Metric value AST nodes handled by `appendSpanMetricExpr`
(`ast.Name`, `ast.Number`, `ast.ParenExpr`, `ast.BinaryExpr`); the
`unsupported` constructor stands for every other `ast.Expr` implementation,
which the type switch sends to the default error branch. -/
inductive MExpr where
  | name (func : String) (attr : String)
  | number (text : String)
  | paren (e : MExpr)
  | binary (lhs : MExpr) (op : String) (rhs : MExpr)
  | unsupported (tag : String)
deriving DecidableEq, Repr

/-- `appendSpanMetricExpr(b, expr)` from `span_metric.go`, parameterized by
the external `tracing.AppendCHColumn` collaborator `col` (which receives the
accumulated buffer, the name, and `spanMetricMinutes`). -/
def appendSpanMetricExpr (col : String → CHName → Nat → String) (b : String) :
    MExpr → Except Err String
  | .name f a => .ok (col b ⟨f, a⟩ spanMetricMinutes)
  | .number t => .ok (b ++ t)
  | .paren e =>
    match appendSpanMetricExpr col (b ++ "(") e with
    | .error e => .error e
    | .ok b1 => .ok (b1 ++ ")")
  | .binary l op r =>
    match appendSpanMetricExpr col b l with
    | .error e => .error e
    | .ok b1 => appendSpanMetricExpr col (b1 ++ " " ++ op ++ " ") r
  | .unsupported _ => .error .unsupportedExpr

/-- Modelled from the spec: the top-level AST of one parsed query part
(`pkg/metrics/upql` is outside the compiled slice). A part is either a
`Selector` wrapping an expression, or any other AST shape (`nonSelector`),
which the type assertion in `compileSpanMetricValue` rejects. -/
inductive UAst where
  | selector (e : MExpr)
  | nonSelector
deriving DecidableEq, Repr

/-- One element of the slice returned by `upql.Parse` (`part.AST`). -/
structure QPart where
  ast : UAst
deriving DecidableEq, Repr

/-- `compileSpanMetricValue(value)` from `span_metric.go`, parameterized by
the external `upql.Parse` collaborator and the column resolver. -/
def compileSpanMetricValue (parse : String → List QPart)
    (col : String → CHName → Nat → String) (value : String) : Except Err String :=
  match parse value with
  | [p] =>
    match p.ast with
    | .selector e => appendSpanMetricExpr col "" e
    | .nonSelector => .error .unsupportedValueAST
  | _ => .error (.malformedValue value)

/-- `tracingupql` condition separator: `CondSep{Op, Negate}`. -/
structure CondSep where
  op : String
  negate : Bool
deriving DecidableEq, Repr

/-- `tracingupql` WHERE condition: `Cond{Left, Op, Right, CondSep}`. -/
structure Cond where
  left : String
  op : String
  right : String
  sep : CondSep
deriving DecidableEq, Repr

/-- `strings.HasPrefix(s, pre)`: byte-prefix test, modelled on character
lists. -/
def hasPrefix (s pre : String) : Bool :=
  pre.toList.isPrefixOf s.toList

/-- The "where " normalization at the top of `compileSpanMetricWhere`:
`if !strings.HasPrefix(where, "where ") { where = "where " + where }`. -/
def normalizeWhere (w : String) : String :=
  if hasPrefix w "where " then w else "where " ++ w

/-- The condition loop of `compileSpanMetricWhere`, parameterized by the
external `tracing.IsAggColumn` classifier and the `tracing.CompileCond`
renderer (`none` models a nil byte slice). `w` is the (normalized) where
string used in the error message. -/
def whereFold (w : String) (isAgg : String → Bool) (cc : Cond → Option String)
    (b : String) : List Cond → Except Err String
  | [] => .ok b
  | cond :: rest =>
    match cc cond with
    | none => whereFold w isAgg cc b rest
    | some bb =>
      if isAgg cond.left then .error (.aggInFilter w)
      else
        let b1 := if b ≠ "" then b ++ cond.sep.op ++ " " else b
        let b2 := if cond.sep.negate then b1 ++ "NOT " else b1
        whereFold w isAgg cc (b2 ++ bb) rest

/-- `compileSpanMetricWhere(where)` from `span_metric.go`, parameterized by
the external parser (`tracingupql.Parse` plus the `*tracingupql.Where` type
assertion, collapsed to an `Option`), the aggregate classifier and the
condition renderer. -/
def compileSpanMetricWhere (pw : String → Option (List Cond))
    (isAgg : String → Bool) (cc : Cond → Option String) (w : String) :
    Except Err String :=
  let w1 := normalizeWhere w
  match pw w1 with
  | none => .error (.malformedWhere w1)
  | some conds => whereFold w1 isAgg cc "" conds

/-- Modelled from the spec: the external `tracing.CompileCond` collaborator,
rendering a simple condition as `left SP op SP right` (the shape the spec's
WHERE-fold example assumes, e.g. `x = 1`). -/
def specCompileCond (c : Cond) : Option String :=
  some (c.left ++ " " ++ c.op ++ " " ++ c.right)

/-- Modelled from the spec: the instrument-name constants
(`GaugeInstrument` etc. are defined in `pkg/metrics` outside the compiled
slice). -/
def GaugeInstrument : String := "gauge"

/-- Modelled from the spec: see `GaugeInstrument`. -/
def AdditiveInstrument : String := "additive"

/-- Modelled from the spec: see `GaugeInstrument`. -/
def CounterInstrument : String := "counter"

/-- Modelled from the spec: see `GaugeInstrument`. -/
def HistogramInstrument : String := "histogram"

/-- The metric definition record (`bunconf.SpanMetric`), the fields
`createMatView` reads. -/
structure SpanMetric where
  name : String
  instrument : String
  value : String
  attrs : List String
  annotations : List String
  whereS : String
deriving DecidableEq, Repr

/-- One selected column of the produced view: the SQL fragment and its
alias (`""` when the `ColumnExpr` carries no `AS` alias). -/
structure Col where
  sql : String
  colAlias : String
deriving DecidableEq, Repr

/-- The produced materialized-view definition: name, selected columns,
GROUP BY fragments and optional filter. -/
structure ViewDef where
  viewName : String
  selectColumns : List Col
  groupBy : List String
  filter : Option String
deriving DecidableEq, Repr

/-- Modelled from the spec: the `ch` placeholder quoting of a string value
(`?` bound to a Go string renders as a quoted SQL literal). -/
def quoteStr (s : String) : String := "'" ++ s ++ "'"

/-- Modelled from the spec: `ch.In(attrs)` renders a comma-separated list
of quoted strings. -/
def chIn (xs : List String) : String :=
  String.intercalate ", " (xs.map quoteStr)

/-- `compileSpanMetricAttrs(attrs)`: comma-joined attribute access
expressions, parameterized by the external `tracing.AppendCHAttrExpr`. -/
def compileSpanMetricAttrs (attrExpr : String → String) (attrs : List String) :
    String :=
  String.intercalate ", " (attrs.map attrExpr)

/-- `compileSpanMetricAnnotations(attrs)`: comma-joined
`'key', toString(any(attr-expr))` pairs. -/
def compileSpanMetricAnnotations (attrExpr : String → String)
    (attrs : List String) : String :=
  String.intercalate ", "
    (attrs.map (fun a => quoteStr a ++ ", toString(any(" ++ attrExpr a ++ "))"))

/-- The view name computed by `createMatView`:
`"metrics_" + strings.ReplaceAll(metric.Name, ".", "_") + "_mv"` (a
single-character pattern, so `ReplaceAll` is a character map). -/
def spanMetricViewName (name : String) : String :=
  "metrics_" ++
    String.mk (name.toList.map (fun c => if c = '.' then '_' else c)) ++ "_mv"

/-- The value-bearing columns appended by the instrument switch of
`createMatView`; `Except.error` is the `default` branch. -/
def instrumentColumns (instr : String) (valueExpr : String) :
    Except Err (List Col) :=
  if instr = GaugeInstrument then .ok [⟨valueExpr, "value"⟩]
  else if instr = AdditiveInstrument then .ok [⟨valueExpr, "value"⟩]
  else if instr = CounterInstrument then .ok [⟨valueExpr, "sum"⟩]
  else if instr = HistogramInstrument then
    .ok [⟨"count()", "count"⟩, ⟨"sum(" ++ valueExpr ++ ")", "sum"⟩,
      ⟨"quantilesBFloat16State(0.5)(toFloat32(" ++ valueExpr ++ "))", "histogram"⟩]
  else .error (.unsupportedInstrument instr)

/-- The pure compile pipeline of `createMatView` from `span_metric.go`
(the DDL round trips to the store are external I/O): view name, value
compilation, base columns and groups, conditional attribute / annotation
columns, conditional WHERE compilation, instrument dispatch. -/
def createMatView (attrExpr : String → String) (parse : String → List QPart)
    (col : String → CHName → Nat → String) (pw : String → Option (List Cond))
    (isAgg : String → Bool) (cc : Cond → Option String) (m : SpanMetric) :
    Except Err ViewDef :=
  match compileSpanMetricValue parse col m.value with
  | .error e => .error e
  | .ok valueExpr =>
    let baseCols : List Col :=
      [⟨"s.project_id", ""⟩, ⟨quoteStr m.name, "metric"⟩,
        ⟨"toStartOfMinute(s.time)", "time"⟩, ⟨quoteStr m.instrument, "instrument"⟩]
    let baseGroup : List String := ["s.project_id, toStartOfMinute(s.time)"]
    let attrsExpr := compileSpanMetricAttrs attrExpr m.attrs
    let attrCols : List Col :=
      if m.attrs ≠ [] then
        [⟨"xxHash64(arrayStringConcat([" ++ attrsExpr ++ "], '-'))", "attrs_hash"⟩,
          ⟨"[" ++ chIn m.attrs ++ "]", "attr_keys"⟩,
          ⟨"[" ++ attrsExpr ++ "]", "attr_values"⟩]
      else []
    let groups := if m.attrs ≠ [] then baseGroup ++ [attrsExpr] else baseGroup
    let annCols : List Col :=
      if m.annotations ≠ [] then
        [⟨"toJSONString(map(" ++
            compileSpanMetricAnnotations attrExpr m.annotations ++ "))",
          "annotations"⟩]
      else []
    match (if m.whereS ≠ "" then compileSpanMetricWhere pw isAgg cc m.whereS
      else .ok "") with
    | .error e => .error e
    | .ok whereExpr =>
      match instrumentColumns m.instrument valueExpr with
      | .error e => .error e
      | .ok valueCols =>
        .ok ⟨spanMetricViewName m.name,
          baseCols ++ attrCols ++ annCols ++ valueCols, groups,
          if whereExpr ≠ "" then some whereExpr else none⟩

/-- The aliases of the columns `createMatView` selects before the
instrument dispatch, in order. -/
def nonValueAliases (m : SpanMetric) : List String :=
  ["", "metric", "time", "instrument"] ++
    (if m.attrs ≠ [] then ["attrs_hash", "attr_keys", "attr_values"] else []) ++
    (if m.annotations ≠ [] then ["annotations"] else [])

/-- `TokenID` from the upql `ast` package (`EOF_TOKEN`, `BYTE_TOKEN`,
`IDENT_TOKEN`, `VALUE_TOKEN`, `NUMBER_TOKEN`). -/
inductive TokenID where
  | eof
  | byte
  | ident
  | value
  | number
deriving DecidableEq, Repr

/-- `Token{ID, Text, Start}`; text as a character list (Go byte slice). -/
structure Token where
  id : TokenID
  text : List Char
  start : Nat
deriving DecidableEq, Repr

/-- `var eofToken = &Token{ID: EOF_TOKEN}`. -/
def eofToken : Token := ⟨.eof, [], 0⟩

/-- The lex failure of an unterminated quoted literal
(`bunlex.ReadUnquoted` reaching end of input). -/
inductive LexErr where
  | unterminated
deriving DecidableEq, Repr

/-- Modelled from the spec: `bunlex.IsDigit`. -/
def bunIsDigit (c : Char) : Bool := '0' ≤ c && c ≤ '9'

/-- Modelled from the spec: `bunlex.IsAlpha`. -/
def bunIsAlpha (c : Char) : Bool :=
  ('a' ≤ c && c ≤ 'z') || ('A' ≤ c && c ≤ 'Z')

/-- Modelled from the spec: `bunlex.IsAlnum`. -/
def bunIsAlnum (c : Char) : Bool := bunIsAlpha c || bunIsDigit c

/-- Modelled from the spec: `bunlex.IsWhitespace`. -/
def bunIsWhitespace (c : Char) : Bool :=
  c = ' ' || c = '\t' || c = '\n' || c = '\r'

/-- `isIdentChar(c)` from the upql `ast` package: alphanumeric, `_` or `.`. -/
def isIdentChar (c : Char) : Bool := bunIsAlnum c || c = '_' || c = '.'

/-- Modelled from the spec: `bunlex.Lexer.Number` consumes a digit run and
an optional fractional part, returning the consumed text. -/
def numberText (l : List Char) : List Char :=
  match l.drop (l.takeWhile bunIsDigit).length with
  | '.' :: r2 => l.takeWhile bunIsDigit ++ '.' :: r2.takeWhile bunIsDigit
  | _ => l.takeWhile bunIsDigit

/-- Modelled from the spec: `bunlex.Lexer.ReadUnquoted` consumes up to and
including the matching unescaped closing quote `q`, returning the unescaped
text and the number of characters consumed; `none` when input ends first. -/
def readUnquoted (q : Char) : List Char → Option (List Char × Nat)
  | [] => none
  | c :: r =>
    if c = q then some ([], 1)
    else if c = '\\' then
      match r with
      | [] => none
      | d :: r2 =>
        match readUnquoted q r2 with
        | some (t, n) => some (d :: t, n + 2)
        | none => none
    else
      match readUnquoted q r with
      | some (t, n) => some (c :: t, n + 1)
      | none => none

/-- The body of `lexer.readToken` on the unread suffix of the source:
given the remaining characters and the current lexer offset `p`, produce
the token and the new offset, `none` standing for the EOF sentinel (end of
input reached, offset after any skipped whitespace). Structured exactly as
the Go dispatch: quotes, `(`/`)`/`,`, `_`, `$`, whitespace (skipped only
under `ignoreSpaces`), digits, alphabetic identifiers, then the catch-all
single-character token. -/
def readTokenGo (ignoreSpaces : Bool) : List Char → Nat →
    Except LexErr (Option (Token × Nat) × Nat)
  | [], p => .ok (none, p)
  | c :: rest, p =>
    if c = '\'' ∨ c = '"' then
      match readUnquoted c rest with
      | none => .error .unterminated
      | some (txt, n) => .ok (some (⟨.value, txt, p⟩, p + 1 + n), p + 1 + n)
    else if c = '(' ∨ c = ')' ∨ c = ',' then
      .ok (some (⟨.byte, [c], p⟩, p + 1), p + 1)
    else if c = '_' ∨ c = '$' then
      let tail := rest.takeWhile isIdentChar
      .ok (some (⟨.ident, c :: tail, p⟩, p + 1 + tail.length), p + 1 + tail.length)
    else if ignoreSpaces ∧ bunIsWhitespace c then
      readTokenGo ignoreSpaces rest (p + 1)
    else if bunIsDigit c then
      let txt := numberText (c :: rest)
      .ok (some (⟨.number, txt, p + txt.length⟩, p + txt.length), p + txt.length)
    else if bunIsAlpha c then
      let tail := rest.takeWhile isIdentChar
      .ok (some (⟨.ident, c :: tail, p⟩, p + 1 + tail.length), p + 1 + tail.length)
    else
      .ok (some (⟨.byte, [c], p⟩, p + 1), p + 1)

/-- The `lexer` struct from the upql `ast` package: source, the wrapped
`bunlex.Lexer` offset, the `ignoreSpaces` flag, the append-only token cache
and the read cursor `pos`. -/
structure TokStream where
  src : List Char
  lexPos : Nat
  ignoreSpaces : Bool
  tokens : List Token
  pos : Nat
deriving DecidableEq, Repr

/-- `newLexer(s)`: fresh stream over `s`. -/
def mkLexer (s : String) : TokStream := ⟨s.toList, 0, false, [], 0⟩

/-- `lexer.readToken`: read one token from the source at the current lexer
offset; a produced token is appended to the cache, the EOF sentinel is
returned without being cached. -/
def readToken (st : TokStream) : Except LexErr (Token × TokStream) :=
  match readTokenGo st.ignoreSpaces (st.src.drop st.lexPos) st.lexPos with
  | .error e => .error e
  | .ok (none, p1) => .ok (eofToken, { st with lexPos := p1 })
  | .ok (some (tok, p1), _) =>
    .ok (tok, { st with lexPos := p1, tokens := st.tokens ++ [tok] })

/-- `lexer.PeekToken`: replay the cached token at `pos` when available,
otherwise read a fresh one. -/
def peekToken (st : TokStream) : Except LexErr (Token × TokStream) :=
  if h : st.pos < st.tokens.length then .ok (st.tokens.get ⟨st.pos, h⟩, st)
  else readToken st

/-- `lexer.NextToken`: peek, then advance the read cursor. -/
def nextToken (st : TokStream) : Except LexErr (Token × TokStream) :=
  match peekToken st with
  | .error e => .error e
  | .ok (tok, st1) => .ok (tok, { st1 with pos := st1.pos + 1 })

/-- The public operations of the token stream named by the spec:
`PeekToken`, `NextToken`, `Pos`, `ResetPos`. -/
inductive LexOp where
  | peek
  | next
  | posq
  | reset (p : Nat)
deriving DecidableEq, Repr

/-- Apply one stream operation (`Pos` and `ResetPos` return no token). -/
def applyOp (st : TokStream) : LexOp → Except LexErr (Option Token × TokStream)
  | .peek =>
    match peekToken st with
    | .error e => .error e
    | .ok (tok, st1) => .ok (some tok, st1)
  | .next =>
    match nextToken st with
    | .error e => .error e
    | .ok (tok, st1) => .ok (some tok, st1)
  | .posq => .ok (none, st)
  | .reset p => .ok (none, { st with pos := p })

/-- Identity column resolution: the collaborator that resolves a name to
its attribute key appended to the buffer (the spec's "identity column
resolution"). -/
def idColumn (b : String) (n : CHName) (_ : Nat) : String := b ++ n.attrKey

/-- A `takeWhile`-run is recovered by `take` of its length. -/
theorem take_len_takeWhile {α : Type} (p : α → Bool) (l : List α) :
    l.take (l.takeWhile p).length = l.takeWhile p :=
  (List.prefix_iff_eq_take.mp (List.takeWhile_prefix p)).symm

/-- The text consumed by the number scanner is an initial run of the
input. -/
theorem numberText_pre (l : List Char) : numberText l <+: l := by
  unfold numberText
  split
  case h_1 r2 heq =>
    conv_rhs =>
      rw [← List.take_append_drop (l.takeWhile bunIsDigit).length l,
        take_len_takeWhile, heq]
    exact (List.prefix_append_right_inj _).mpr
      (List.cons_prefix_cons.mpr ⟨rfl, List.takeWhile_prefix _⟩)
  case h_2 => exact List.takeWhile_prefix _

/-- `take` of the number scanner's length recovers its text. -/
theorem take_len_numberText (l : List Char) :
    l.take (numberText l).length = numberText l :=
  (List.prefix_iff_eq_take.mp (numberText_pre l)).symm

/-- A column resolver that appends to its buffer makes the expression
compiler an appender: every successful compile extends the incoming
buffer. -/
theorem appendExpr_extends (col : String → CHName → Nat → String)
    (hcol : ∀ b n m, ∃ t, col b n m = b ++ t) (e : MExpr) :
    ∀ b : String, (∃ err, appendSpanMetricExpr col b e = .error err) ∨
      ∃ t, appendSpanMetricExpr col b e = .ok (b ++ t) := by
  induction e with
  | name f a =>
    intro b
    obtain ⟨t, ht⟩ := hcol b ⟨f, a⟩ spanMetricMinutes
    exact .inr ⟨t, by simp [appendSpanMetricExpr, ht]⟩
  | number t => exact fun b => .inr ⟨t, rfl⟩
  | paren e ih =>
    intro b
    rcases ih (b ++ "(") with ⟨err, herr⟩ | ⟨t, ht⟩
    · exact .inl ⟨err, by simp [appendSpanMetricExpr, herr]⟩
    · refine .inr ⟨"(" ++ t ++ ")", ?_⟩
      simp only [appendSpanMetricExpr, ht]
      simp [String.append_assoc]
  | binary l op r ihl ihr =>
    intro b
    rcases ihl b with ⟨err, herr⟩ | ⟨t1, ht1⟩
    · exact .inl ⟨err, by simp [appendSpanMetricExpr, herr]⟩
    · rcases ihr (b ++ t1 ++ " " ++ op ++ " ") with ⟨err, herr⟩ | ⟨t2, ht2⟩
      · exact .inl ⟨err, by simp [appendSpanMetricExpr, ht1, herr]⟩
      · refine .inr ⟨t1 ++ " " ++ op ++ " " ++ t2, ?_⟩
        simp only [appendSpanMetricExpr, ht1, ht2]
        simp [String.append_assoc]
  | unsupported tag => exact fun b => .inl ⟨.unsupportedExpr, rfl⟩

/-- Claim C7: the expression compiler emits a `Number` node's text verbatim
after the accumulated buffer, with no re-serialization; in particular
compiling `Number{text:"3.14"}` from an empty buffer yields exactly
`"3.14"`. -/
theorem number_emitted_verbatim :
    (∀ (col : String → CHName → Nat → String) (b t : String),
      appendSpanMetricExpr col b (.number t) = .ok (b ++ t)) ∧
    appendSpanMetricExpr idColumn "" (.number "3.14") = .ok "3.14" :=
  ⟨fun _ _ _ => rfl, rfl⟩

/-- Claim C8: `ParenExpr` emits `(`, the compiled inner expression, then
`)`; `BinaryExpr` emits the compiled left operand, a space, the operator
text unchanged, a space, then compiles the right operand from that buffer;
when the resolver appends to its buffer, the parentheses are never dropped
(the result keeps the opening `(` and closes with `)`); and compiling
`ParenExpr{BinaryExpr{Name{"a"}, "+", Name{"b"}}}` under identity column
resolution yields `"(a + b)"`. -/
theorem paren_binary_shape :
    (∀ (col : String → CHName → Nat → String) (b : String) (e : MExpr)
        (b1 : String), appendSpanMetricExpr col (b ++ "(") e = .ok b1 →
      appendSpanMetricExpr col b (.paren e) = .ok (b1 ++ ")")) ∧
    (∀ (col : String → CHName → Nat → String) (b : String) (l : MExpr)
        (op : String) (r : MExpr) (b1 : String),
      appendSpanMetricExpr col b l = .ok b1 →
      appendSpanMetricExpr col b (.binary l op r) =
        appendSpanMetricExpr col (b1 ++ " " ++ op ++ " ") r) ∧
    (∀ col : String → CHName → Nat → String,
      (∀ b n m, ∃ t, col b n m = b ++ t) → ∀ (e : MExpr) (b t : String),
      appendSpanMetricExpr col (b ++ "(") e = .ok t →
      appendSpanMetricExpr col b (.paren e) = .ok (t ++ ")") ∧
        hasPrefix t (b ++ "(") = true) ∧
    appendSpanMetricExpr idColumn ""
      (.paren (.binary (.name "" "a") "+" (.name "" "b"))) = .ok "(a + b)" := by
  refine ⟨?_, ?_, ?_, rfl⟩
  · intro col b e b1 h
    simp [appendSpanMetricExpr, h]
  · intro col b l op r b1 h
    simp [appendSpanMetricExpr, h]
  · intro col hcol e b t h
    refine ⟨by simp [appendSpanMetricExpr, h], ?_⟩
    rcases appendExpr_extends col hcol e (b ++ "(") with ⟨err, herr⟩ | ⟨u, hu⟩
    · rw [herr] at h; cases h
    · rw [hu] at h
      obtain rfl : (b ++ "(") ++ u = t := by
        have := h
        injection this
      unfold hasPrefix
      rw [List.isPrefixOf_iff_prefix]
      show (b ++ "(").toList <+: ((b ++ "(") ++ u).toList
      simp only [String.toList, String.data_append]
      exact List.prefix_append _ _

/-- Witness for `paren_binary_shape` at concrete inputs. -/
theorem paren_binary_shape_witness :
    appendSpanMetricExpr idColumn "" (.paren (.number "7")) = .ok ("(7" ++ ")") ∧
    appendSpanMetricExpr idColumn "" (.binary (.number "1") "+" (.number "2")) =
      appendSpanMetricExpr idColumn ("1" ++ " " ++ "+" ++ " ") (.number "2") ∧
    (appendSpanMetricExpr idColumn "" (.paren (.number "7")) = .ok ("(7" ++ ")") ∧
      hasPrefix "(7" ("" ++ "(") = true) :=
  ⟨paren_binary_shape.1 idColumn "" (.number "7") "(7" rfl,
    paren_binary_shape.2.1 idColumn "" (.number "1") "+" (.number "2") "1" rfl,
    paren_binary_shape.2.2.1 idColumn (fun _ n _ => ⟨n.attrKey, rfl⟩)
      (.number "7") "" "(7" rfl⟩

/-- The normalization is idempotent: a normalized string already starts
with `"where "`. -/
theorem normalizeWhere_idem (w : String) :
    normalizeWhere (normalizeWhere w) = normalizeWhere w := by
  unfold normalizeWhere
  by_cases h : hasPrefix w "where " = true
  · simp [h]
  · have hp : hasPrefix ("where " ++ w) "where " = true := by
      unfold hasPrefix
      rw [List.isPrefixOf_iff_prefix]
      show "where ".toList <+: ("where " ++ w).toList
      simp only [String.toList, String.data_append]
      exact List.prefix_append _ _
    simp [h, hp]

/-- Claim C9: the `"where "` prefix normalization is case-sensitive and
exact: an input beginning with the six lowercase characters `"where "` is
handed to the parser unchanged, any other input (including one beginning
with `"WHERE "`) is prefixed with `"where "`; and the whole WHERE compile
is invariant under pre-normalizing its input. -/
theorem where_normalization_exact :
    (∀ w : String, hasPrefix w "where " = true → normalizeWhere w = w) ∧
    (∀ w : String, hasPrefix w "where " = false →
      normalizeWhere w = "where " ++ w) ∧
    normalizeWhere "WHERE dur > 1" = "where " ++ "WHERE dur > 1" ∧
    (∀ (pw : String → Option (List Cond)) (isAgg : String → Bool)
        (cc : Cond → Option String) (w : String),
      compileSpanMetricWhere pw isAgg cc w =
        compileSpanMetricWhere pw isAgg cc (normalizeWhere w)) := by
  refine ⟨?_, ?_, rfl, ?_⟩
  · intro w h; simp [normalizeWhere, h]
  · intro w h; simp [normalizeWhere, h]
  · intro pw isAgg cc w
    simp only [compileSpanMetricWhere, normalizeWhere_idem]

/-- Witness for `where_normalization_exact` at concrete inputs. -/
theorem where_normalization_exact_witness :
    normalizeWhere "where dur > 1" = "where dur > 1" ∧
    normalizeWhere "WHERE dur > 1" = "where " ++ "WHERE dur > 1" :=
  ⟨where_normalization_exact.1 "where dur > 1" rfl,
    where_normalization_exact.2.1 "WHERE dur > 1" rfl⟩

/-- The condition list of the spec's WHERE-fold example:
`[{left:"x", op:"=", right:"1", sep:{AND,false}},
  {left:"y", op:"=", right:"2", sep:{OR,true}}]`. -/
def exampleConds : List Cond :=
  [⟨"x", "=", "1", ⟨"AND", false⟩⟩, ⟨"y", "=", "2", ⟨"OR", true⟩⟩]

/-- A classifier that marks no column as aggregate. -/
def noAgg : String → Bool := fun _ => false

/-- Claim C1, counterexample: on the spec's example condition list, the
WHERE compile produces `"x = 1OR NOT y = 2"` — the separator is appended
with no space before it — and not the claimed `"x = 1 OR NOT y = 2"`. -/
theorem where_fold_example_counterexample :
    compileSpanMetricWhere (fun _ => some exampleConds) noAgg specCompileCond
        "x = 1" = .ok "x = 1OR NOT y = 2" ∧
      "x = 1OR NOT y = 2" ≠ "x = 1 OR NOT y = 2" :=
  ⟨rfl, by decide⟩

/-- Claim C1 (amended): on the example condition list the WHERE compile
produces exactly `"x = 1OR NOT y = 2"`; the first surviving condition's
separator is ignored, and each later surviving condition extends the
accumulated fragment with its logical operator text and a single trailing
space (no space before the operator), then `"NOT "` when its separator
marks negation, then the condition's own fragment. -/
theorem where_fold_accumulation :
    compileSpanMetricWhere (fun _ => some exampleConds) noAgg specCompileCond
        "x = 1" = .ok "x = 1OR NOT y = 2" ∧
    (∀ (w : String) (isAgg : String → Bool) (cc : Cond → Option String)
        (cond : Cond) (rest : List Cond) (bb : String),
      cc cond = some bb → isAgg cond.left = false →
      whereFold w isAgg cc "" (cond :: rest) =
        whereFold w isAgg cc ((if cond.sep.negate then "NOT " else "") ++ bb)
          rest) ∧
    (∀ (w : String) (isAgg : String → Bool) (cc : Cond → Option String)
        (b : String) (cond : Cond) (rest : List Cond) (bb : String),
      b ≠ "" → cc cond = some bb → isAgg cond.left = false →
      whereFold w isAgg cc b (cond :: rest) =
        whereFold w isAgg cc
          ((if cond.sep.negate then (b ++ cond.sep.op ++ " ") ++ "NOT "
            else b ++ cond.sep.op ++ " ") ++ bb) rest) := by
  refine ⟨rfl, ?_, ?_⟩
  · intro w isAgg cc cond rest bb hcc hagg
    simp [whereFold, hcc, hagg]
  · intro w isAgg cc b cond rest bb hb hcc hagg
    simp [whereFold, hcc, hagg, hb]

/-- Witness for `where_fold_accumulation` at concrete inputs. -/
theorem where_fold_accumulation_witness :
    whereFold "w" noAgg specCompileCond "" exampleConds =
      whereFold "w" noAgg specCompileCond
        ((if (false : Bool) then "NOT " else "") ++ "x = 1")
        [⟨"y", "=", "2", ⟨"OR", true⟩⟩] ∧
    whereFold "w" noAgg specCompileCond "x = 1"
        [⟨"y", "=", "2", ⟨"OR", true⟩⟩] =
      whereFold "w" noAgg specCompileCond
        ((if (true : Bool) then ("x = 1" ++ "OR" ++ " ") ++ "NOT "
          else "x = 1" ++ "OR" ++ " ") ++ "y = 2") [] :=
  ⟨where_fold_accumulation.2.1 "w" noAgg specCompileCond
      ⟨"x", "=", "1", ⟨"AND", false⟩⟩ [⟨"y", "=", "2", ⟨"OR", true⟩⟩]
      "x = 1" rfl rfl,
    where_fold_accumulation.2.2 "w" noAgg specCompileCond "x = 1"
      ⟨"y", "=", "2", ⟨"OR", true⟩⟩ [] "y = 2" (by decide) rfl rfl⟩

/-- Claim C2, counterexample: a condition whose left side is classified as
aggregate but whose compiled fragment is nil is skipped before the
aggregate check, so the compile succeeds (with an empty fragment) instead
of failing with `AggregateInFilter`. -/
theorem agg_filter_counterexample :
    compileSpanMetricWhere
        (fun _ => some [⟨"p50(dur)", "=", "1", ⟨"AND", false⟩⟩])
        (fun _ => true) (fun _ => none) "x = 1" = .ok "" ∧
      (Except.ok "" : Except Err String) ≠
        .error (.aggInFilter (normalizeWhere "x = 1")) :=
  ⟨rfl, fun h => Except.noConfusion h⟩

/-- Any condition with an aggregate left side and a non-nil fragment makes
the fold fail with `AggregateInFilter`, from any accumulated fragment. -/
theorem whereFold_agg_error (w : String) (isAgg : String → Bool)
    (cc : Cond → Option String) :
    ∀ (conds : List Cond) (b : String),
      (∃ c ∈ conds, isAgg c.left = true ∧ cc c ≠ none) →
      whereFold w isAgg cc b conds = .error (.aggInFilter w) := by
  intro conds
  induction conds with
  | nil => intro b h; simp at h
  | cons cond rest ih =>
    intro b h
    obtain ⟨c, hc, hcagg, hccne⟩ := h
    rcases List.mem_cons.mp hc with rfl | hmem
    · obtain ⟨bb, hbb⟩ := Option.ne_none_iff_exists'.mp hccne
      simp [whereFold, hbb, hcagg]
    · cases hcc : cc cond with
      | none => simp only [whereFold, hcc]; exact ih b ⟨c, hmem, hcagg, hccne⟩
      | some bb =>
        by_cases hagg : isAgg cond.left
        · simp [whereFold, hcc, hagg]
        · simp only [whereFold, hcc, hagg, Bool.false_eq_true, if_false]
          exact ih _ ⟨c, hmem, hcagg, hccne⟩

/-- Claim C2 (amended): whenever the parsed condition list contains a
condition whose left side is classified aggregate and whose compiled
fragment is non-nil, the WHERE compile fails with `AggregateInFilter`,
regardless of the condition's position; a condition whose fragment is nil
is skipped before the aggregate check. -/
theorem agg_filter_rejection (pw : String → Option (List Cond))
    (isAgg : String → Bool) (cc : Cond → Option String) (w : String)
    (conds : List Cond) (hpw : pw (normalizeWhere w) = some conds)
    (hex : ∃ c ∈ conds, isAgg c.left = true ∧ cc c ≠ none) :
    compileSpanMetricWhere pw isAgg cc w =
      .error (.aggInFilter (normalizeWhere w)) := by
  simp only [compileSpanMetricWhere, hpw]
  exact whereFold_agg_error _ _ _ conds "" hex

/-- Witness for `agg_filter_rejection`: the aggregate condition sits in
second position, after an ordinary one, and the compile still fails. -/
theorem agg_filter_rejection_witness :
    compileSpanMetricWhere
        (fun _ => some [⟨"x", "=", "1", ⟨"AND", false⟩⟩,
          ⟨"agg", "=", "2", ⟨"AND", false⟩⟩])
        (fun s => s == "agg") specCompileCond "x = 1" =
      .error (.aggInFilter "where x = 1") :=
  agg_filter_rejection _ _ _ "x = 1" _ rfl
    ⟨⟨"agg", "=", "2", ⟨"AND", false⟩⟩, by simp, rfl, by simp [specCompileCond]⟩

/-- Claim C6, counterexample: a single top-level expression that is not a
`Selector` fails with the "unsupported metric value AST" error, which is a
different error than `MalformedMetricValue` ("can't parse metric
value"). -/
theorem value_non_selector_counterexample :
    compileSpanMetricValue (fun _ => [⟨.nonSelector⟩]) idColumn "rate" =
        .error .unsupportedValueAST ∧
      Err.unsupportedValueAST ≠ .malformedValue "rate" :=
  ⟨rfl, by decide⟩

/-- Claim C6 (amended): the metric value compile fails with
`MalformedMetricValue` exactly when parsing yields zero or more than one
top-level expression; a single top-level expression that is not a
`Selector` fails with the distinct "unsupported metric value AST" error;
and the inner expression is compiled only when exactly one `Selector` was
parsed. -/
theorem value_error_dispatch :
    (∀ (parse : String → List QPart) (col : String → CHName → Nat → String)
        (v : String), (parse v).length ≠ 1 →
      compileSpanMetricValue parse col v = .error (.malformedValue v)) ∧
    (∀ (parse : String → List QPart) (col : String → CHName → Nat → String)
        (v : String) (p : QPart), parse v = [p] → p.ast = .nonSelector →
      compileSpanMetricValue parse col v = .error .unsupportedValueAST) ∧
    (∀ (parse : String → List QPart) (col : String → CHName → Nat → String)
        (v : String) (p : QPart) (e : MExpr), parse v = [p] →
      p.ast = .selector e →
      compileSpanMetricValue parse col v = appendSpanMetricExpr col "" e) := by
  refine ⟨?_, ?_, ?_⟩
  · intro parse col v hlen
    unfold compileSpanMetricValue
    cases hp : parse v with
    | nil => rfl
    | cons p tail =>
      cases tail with
      | nil => exact absurd (by rw [hp]; rfl) hlen
      | cons q tail2 => rfl
  · intro parse col v p hp hast
    obtain ⟨a⟩ := p
    cases hast
    unfold compileSpanMetricValue
    rw [hp]
  · intro parse col v p e hp hast
    obtain ⟨a⟩ := p
    cases hast
    unfold compileSpanMetricValue
    rw [hp]

/-- Witness for `value_error_dispatch` at concrete inputs. -/
theorem value_error_dispatch_witness :
    compileSpanMetricValue (fun _ => []) idColumn "v" =
        .error (.malformedValue "v") ∧
    compileSpanMetricValue (fun _ => [⟨.nonSelector⟩]) idColumn "v2" =
        .error .unsupportedValueAST ∧
    compileSpanMetricValue (fun _ => [⟨.selector (.number "5")⟩]) idColumn
        "v3" = appendSpanMetricExpr idColumn "" (.number "5") :=
  ⟨value_error_dispatch.1 (fun _ => []) idColumn "v" (by decide),
    value_error_dispatch.2.1 (fun _ => [⟨.nonSelector⟩]) idColumn "v2"
      ⟨.nonSelector⟩ rfl rfl,
    value_error_dispatch.2.2 (fun _ => [⟨.selector (.number "5")⟩]) idColumn
      "v3" ⟨.selector (.number "5")⟩ (.number "5") rfl rfl⟩

/-- Identity attribute resolution for `tracing.AppendCHAttrExpr`. -/
def idAttr : String → String := fun a => a

/-- A value parser returning one `Selector` wrapping the literal `1`. -/
def parseOne : String → List QPart := fun _ => [⟨.selector (.number "1")⟩]

/-- A where parser that always fails (never reached for metrics without a
where clause). -/
def noWhereParse : String → Option (List Cond) := fun _ => none

/-- A condition renderer returning nil for every condition. -/
def noCond : Cond → Option String := fun _ => none

/-- A gauge metric named `http.requests` with no attributes, annotations
or filter. -/
def gaugeMetric : SpanMetric := ⟨"http.requests", "gauge", "1", [], [], ""⟩

/-- The view `createMatView` produces for `gaugeMetric`. -/
def gaugeVd : ViewDef :=
  ⟨"metrics_http_requests_mv",
    [⟨"s.project_id", ""⟩, ⟨"'http.requests'", "metric"⟩,
      ⟨"toStartOfMinute(s.time)", "time"⟩, ⟨"'gauge'", "instrument"⟩,
      ⟨"1", "value"⟩],
    ["s.project_id, toStartOfMinute(s.time)"], none⟩

/-- Claim C4, counterexample: the metric named `http.requests` compiles
successfully, and its view name is `metrics_http_requests_mv` — it carries
a `metrics_` prefix — not the claimed `http_requests_mv`. -/
theorem matview_name_counterexample :
    createMatView idAttr parseOne idColumn noWhereParse noAgg noCond
        gaugeMetric = .ok gaugeVd ∧
      gaugeMetric.name = "http.requests" ∧
      gaugeVd.viewName = "metrics_http_requests_mv" ∧
      gaugeVd.viewName ≠ "http_requests_mv" :=
  ⟨rfl, rfl, rfl, by decide⟩

/-- Claim C4 (amended): for every metric definition that compiles
successfully, the produced view name is obtained from the metric name by
prepending `"metrics_"`, replacing every `.` with `_`, and suffixing
`"_mv"`; so `http.requests` yields `metrics_http_requests_mv`. -/
theorem matview_name_derivation :
    (∀ (aE : String → String) (parse : String → List QPart)
        (col : String → CHName → Nat → String)
        (pw : String → Option (List Cond)) (isAgg : String → Bool)
        (cc : Cond → Option String) (m : SpanMetric) (vd : ViewDef),
      createMatView aE parse col pw isAgg cc m = .ok vd →
      vd.viewName = spanMetricViewName m.name) ∧
    spanMetricViewName "http.requests" = "metrics_http_requests_mv" := by
  refine ⟨?_, rfl⟩
  intro aE parse col pw isAgg cc m vd h
  simp only [createMatView] at h
  split at h
  · cases h
  · split at h
    · cases h
    · split at h
      · cases h
      · injection h with h1
        rw [← h1]

/-- Witness for `matview_name_derivation` at the concrete gauge metric. -/
theorem matview_name_derivation_witness :
    gaugeVd.viewName = spanMetricViewName gaugeMetric.name :=
  matview_name_derivation.1 idAttr parseOne idColumn noWhereParse noAgg
    noCond gaugeMetric gaugeVd rfl

/-- A histogram metric with no attributes, annotations or filter. -/
def histMetric : SpanMetric := ⟨"http.requests", "histogram", "1", [], [], ""⟩

/-- The view `createMatView` produces for `histMetric`. -/
def histVd : ViewDef :=
  ⟨"metrics_http_requests_mv",
    [⟨"s.project_id", ""⟩, ⟨"'http.requests'", "metric"⟩,
      ⟨"toStartOfMinute(s.time)", "time"⟩, ⟨"'histogram'", "instrument"⟩,
      ⟨"count()", "count"⟩, ⟨"sum(1)", "sum"⟩,
      ⟨"quantilesBFloat16State(0.5)(toFloat32(1))", "histogram"⟩],
    ["s.project_id, toStartOfMinute(s.time)"], none⟩

/-- A metric whose instrument name is outside the supported set. -/
def bogusMetric : SpanMetric := ⟨"m", "bogus", "1", [], [], ""⟩

/-- Claim C5: the value-bearing columns of a successfully produced view
are selected strictly by instrument — `histogram` appends exactly the
three columns aliased `count`, `sum`, `histogram`; `counter` exactly one
aliased `sum`; `gauge` and `additive` exactly one aliased `value` — and
when compilation reaches the instrument dispatch with any other instrument
name, the result is the `UnsupportedInstrument` error and no view
definition. -/
theorem instrument_column_shape :
    (∀ (aE : String → String) (parse : String → List QPart)
        (col : String → CHName → Nat → String)
        (pw : String → Option (List Cond)) (isAgg : String → Bool)
        (cc : Cond → Option String) (m : SpanMetric) (vd : ViewDef),
      createMatView aE parse col pw isAgg cc m = .ok vd →
      (m.instrument = HistogramInstrument →
        vd.selectColumns.map Col.colAlias =
          nonValueAliases m ++ ["count", "sum", "histogram"]) ∧
      (m.instrument = CounterInstrument →
        vd.selectColumns.map Col.colAlias = nonValueAliases m ++ ["sum"]) ∧
      (m.instrument = GaugeInstrument ∨ m.instrument = AdditiveInstrument →
        vd.selectColumns.map Col.colAlias = nonValueAliases m ++ ["value"])) ∧
    (∀ (aE : String → String) (parse : String → List QPart)
        (col : String → CHName → Nat → String)
        (pw : String → Option (List Cond)) (isAgg : String → Bool)
        (cc : Cond → Option String) (m : SpanMetric) (v : String),
      compileSpanMetricValue parse col m.value = .ok v →
      (m.whereS = "" ∨
        ∃ ws, compileSpanMetricWhere pw isAgg cc m.whereS = .ok ws) →
      m.instrument ≠ GaugeInstrument → m.instrument ≠ AdditiveInstrument →
      m.instrument ≠ CounterInstrument → m.instrument ≠ HistogramInstrument →
      createMatView aE parse col pw isAgg cc m =
        .error (.unsupportedInstrument m.instrument)) := by
  constructor
  · intro aE parse col pw isAgg cc m vd h
    simp only [createMatView] at h
    split at h
    · cases h
    · split at h
      · cases h
      · split at h
        · cases h
        · next vc hic =>
          injection h with h1
          refine ⟨?_, ?_, ?_⟩
          · intro hinstr
            rw [hinstr] at hic
            simp [instrumentColumns, HistogramInstrument, GaugeInstrument,
              AdditiveInstrument, CounterInstrument] at hic
            rw [← h1, ← hic]
            rcases eq_or_ne m.attrs [] with ha | ha <;>
              rcases eq_or_ne m.annotations [] with hn | hn <;>
                simp [nonValueAliases, ha, hn]
          · intro hinstr
            rw [hinstr] at hic
            simp [instrumentColumns, CounterInstrument, GaugeInstrument,
              AdditiveInstrument] at hic
            rw [← h1, ← hic]
            rcases eq_or_ne m.attrs [] with ha | ha <;>
              rcases eq_or_ne m.annotations [] with hn | hn <;>
                simp [nonValueAliases, ha, hn]
          · intro hinstr
            rcases hinstr with hinstr | hinstr <;> rw [hinstr] at hic <;>
              simp [instrumentColumns, GaugeInstrument,
                AdditiveInstrument] at hic <;>
              rw [← h1, ← hic] <;>
              (rcases eq_or_ne m.attrs [] with ha | ha <;>
                rcases eq_or_ne m.annotations [] with hn | hn <;>
                  simp [nonValueAliases, ha, hn])
  · intro aE parse col pw isAgg cc m v hval hwh h1 h2 h3 h4
    simp only [createMatView, hval]
    have hic : instrumentColumns m.instrument v =
        .error (.unsupportedInstrument m.instrument) := by
      simp [instrumentColumns, h1, h2, h3, h4]
    rcases hwh with hw0 | ⟨ws, hws⟩
    · simp [hw0, hic]
    · by_cases hwe : m.whereS = ""
      · simp [hwe, hic]
      · simp [hwe, hws, hic]

/-- Witness for `instrument_column_shape`: the histogram shape at a
concrete metric, and the unsupported-instrument error for `bogus`. -/
theorem instrument_column_shape_witness :
    histVd.selectColumns.map Col.colAlias =
        nonValueAliases histMetric ++ ["count", "sum", "histogram"] ∧
    createMatView idAttr parseOne idColumn noWhereParse noAgg noCond
        bogusMetric = .error (.unsupportedInstrument bogusMetric.instrument) :=
  ⟨(instrument_column_shape.1 idAttr parseOne idColumn noWhereParse noAgg
      noCond histMetric histVd rfl).1 rfl,
    instrument_column_shape.2 idAttr parseOne idColumn noWhereParse noAgg
      noCond bogusMetric "1" rfl (.inl rfl) (by decide) (by decide) (by decide)
      (by decide)⟩

/-- Relating the reader to the source: every produced token has a non-EOF
id, `Number` tokens record the offset one past their last character (the
text sits at `[start - len, start)`), `Ident` and `Byte` tokens record
their first character's offset (the text sits at `[start, start + len)`),
and `QuotedValue` tokens record the offset of their opening quote. -/
theorem readTokenGo_chars (src : List Char) (ign : Bool) :
    ∀ (l : List Char) (p : Nat) (tok : Token) (q r : Nat),
      l = src.drop p → readTokenGo ign l p = .ok (some (tok, q), r) →
      tok.id ≠ .eof ∧
      (tok.id = .number → tok.text.length ≤ tok.start ∧
        (src.drop (tok.start - tok.text.length)).take tok.text.length =
          tok.text) ∧
      (tok.id = .ident →
        (src.drop tok.start).take tok.text.length = tok.text) ∧
      (tok.id = .byte →
        (src.drop tok.start).take tok.text.length = tok.text) ∧
      (tok.id = .value →
        src[tok.start]? = some '\'' ∨ src[tok.start]? = some '"') := by
  intro l
  induction l with
  | nil =>
    intro p tok q r hl h
    simp [readTokenGo] at h
  | cons c rest ih =>
    intro p tok q r hl h
    have hhead : src[p]? = some c := by
      rw [← List.head?_drop, ← hl]; rfl
    have hrest : rest = src.drop (p + 1) := by
      have h1 : List.drop 1 (List.drop p src) = List.drop (p + 1) src :=
        List.drop_drop 1 p src
      rw [← hl] at h1
      simpa using h1
    simp only [readTokenGo] at h
    by_cases hA : c = '\'' ∨ c = '"'
    · rw [if_pos hA] at h
      cases hru : readUnquoted c rest with
      | none => rw [hru] at h; cases h
      | some pr =>
        obtain ⟨txt, n⟩ := pr
        rw [hru] at h
        cases h
        refine ⟨(fun hh => nomatch hh), (fun hh => nomatch hh),
          (fun hh => nomatch hh), (fun hh => nomatch hh),
          fun _ => ?_⟩
        rcases hA with rfl | rfl
        · exact .inl hhead
        · exact .inr hhead
    · rw [if_neg hA] at h
      by_cases hB : c = '(' ∨ c = ')' ∨ c = ','
      · rw [if_pos hB] at h
        cases h
        refine ⟨(fun hh => nomatch hh), (fun hh => nomatch hh),
          (fun hh => nomatch hh), fun _ => ?_,
          (fun hh => nomatch hh)⟩
        rw [← hl]
        rfl
      · rw [if_neg hB] at h
        by_cases hC : c = '_' ∨ c = '$'
        · rw [if_pos hC] at h
          cases h
          refine ⟨(fun hh => nomatch hh),
            (fun hh => nomatch hh), fun _ => ?_,
            (fun hh => nomatch hh), (fun hh => nomatch hh)⟩
          rw [← hl]
          simp only [List.length_cons, List.take_succ_cons, take_len_takeWhile]
        · rw [if_neg hC] at h
          by_cases hD : ign = true ∧ bunIsWhitespace c = true
          · rw [if_pos hD] at h
            exact ih (p + 1) tok q r hrest h
          · rw [if_neg hD] at h
            by_cases hE : bunIsDigit c = true
            · rw [if_pos hE] at h
              cases h
              refine ⟨(fun hh => nomatch hh), fun _ => ?_,
                (fun hh => nomatch hh), (fun hh => nomatch hh),
                (fun hh => nomatch hh)⟩
              constructor
              · exact Nat.le_add_left _ _
              · rw [Nat.add_sub_cancel, ← hl]
                exact take_len_numberText (c :: rest)
            · rw [if_neg hE] at h
              by_cases hF : bunIsAlpha c = true
              · rw [if_pos hF] at h
                cases h
                refine ⟨(fun hh => nomatch hh),
                  (fun hh => nomatch hh), fun _ => ?_,
                  (fun hh => nomatch hh),
                  (fun hh => nomatch hh)⟩
                rw [← hl]
                simp only [List.length_cons, List.take_succ_cons,
                  take_len_takeWhile]
              · rw [if_neg hF] at h
                cases h
                refine ⟨(fun hh => nomatch hh),
                  (fun hh => nomatch hh),
                  (fun hh => nomatch hh), fun _ => ?_,
                  (fun hh => nomatch hh)⟩
                rw [← hl]
                rfl


/-- `readToken` preserves the read cursor and the source; it either
returns the EOF sentinel leaving the cache untouched, or appends exactly
the returned (non-sentinel) token to the cache. -/
theorem readToken_cache (st : TokStream) (tok : Token) (st' : TokStream)
    (h : readToken st = .ok (tok, st')) :
    st'.pos = st.pos ∧ st'.src = st.src ∧
      (tok = eofToken ∧ st'.tokens = st.tokens ∨
        st'.tokens = st.tokens ++ [tok] ∧ tok ≠ eofToken) := by
  unfold readToken at h
  cases heq : readTokenGo st.ignoreSpaces (st.src.drop st.lexPos) st.lexPos with
  | error e => rw [heq] at h; cases h
  | ok pr =>
    obtain ⟨otk, p1⟩ := pr
    rw [heq] at h
    cases otk with
    | none =>
      cases h
      exact ⟨rfl, rfl, .inl ⟨rfl, rfl⟩⟩
    | some tp =>
      obtain ⟨tk, q⟩ := tp
      cases h
      have hid := (readTokenGo_chars st.src st.ignoreSpaces
        (st.src.drop st.lexPos) st.lexPos tok q p1 rfl heq).1
      refine ⟨rfl, rfl, .inr ⟨rfl, fun he => hid ?_⟩⟩
      rw [he]
      rfl

/-- Claim C3, counterexample: one `NextToken` on the empty source returns
the EOF sentinel and increments `pos` to 1 while the cache stays empty, so
the invariant `pos <= len(tokens)` fails after that operation. -/
theorem stream_invariant_counterexample :
    applyOp (mkLexer "") .next = .ok (some eofToken, { mkLexer "" with pos := 1 }) ∧
      ¬ ({ mkLexer "" with pos := 1 } : TokStream).pos ≤
        ({ mkLexer "" with pos := 1 } : TokStream).tokens.length :=
  ⟨rfl, by decide⟩

/-- Claim C3 (amended): for every stream operation, the token cache only
grows (no operation removes a cached token), and `pos <= len(tokens)` is
preserved by every operation — `ResetPos` restricted to positions within
the cache — except `NextToken` returning the uncached EOF sentinel, which
moves `pos` past the cache length. -/
theorem stream_op_invariant (st : TokStream) (op : LexOp) (ot : Option Token)
    (st' : TokStream) (h : applyOp st op = .ok (ot, st')) :
    st.tokens <+: st'.tokens ∧
      (st.pos ≤ st.tokens.length →
        (∀ p, op = .reset p → p ≤ st.tokens.length) →
        st'.pos ≤ st'.tokens.length ∨ op = .next ∧ ot = some eofToken) := by
  cases op with
  | posq =>
    cases h
    exact ⟨List.prefix_rfl, fun hp _ => .inl hp⟩
  | reset p =>
    cases h
    exact ⟨List.prefix_rfl, fun _ hr => .inl (hr p rfl)⟩
  | peek =>
    simp only [applyOp] at h
    cases heq : peekToken st with
    | error e => rw [heq] at h; cases h
    | ok pr =>
      obtain ⟨tk, st1⟩ := pr
      rw [heq] at h
      cases h
      unfold peekToken at heq
      split at heq
      · cases heq
        exact ⟨List.prefix_rfl, fun hp _ => .inl hp⟩
      · obtain ⟨hpos, -, hcache⟩ := readToken_cache st tk st' heq
        rcases hcache with ⟨-, htoks⟩ | ⟨htoks, -⟩
        · rw [htoks, hpos]
          exact ⟨List.prefix_rfl, fun hp _ => .inl hp⟩
        · rw [htoks, hpos]
          refine ⟨List.prefix_append _ _, fun hp _ => .inl ?_⟩
          rw [List.length_append]
          omega
  | next =>
    simp only [applyOp] at h
    cases heqN : nextToken st with
    | error e => rw [heqN] at h; cases h
    | ok pr =>
      obtain ⟨tk, st1⟩ := pr
      rw [heqN] at h
      cases h
      unfold nextToken at heqN
      cases heqP : peekToken st with
      | error e => rw [heqP] at heqN; cases heqN
      | ok pr2 =>
        obtain ⟨tk2, st2⟩ := pr2
        rw [heqP] at heqN
        cases heqN
        unfold peekToken at heqP
        split at heqP
        · next hlt =>
          cases heqP
          refine ⟨List.prefix_rfl, fun _ _ => .inl ?_⟩
          show st.pos + 1 ≤ st.tokens.length
          omega
        · next hlt =>
          obtain ⟨hpos, -, hcache⟩ := readToken_cache st tk st2 heqP
          rcases hcache with ⟨hteof, htoks⟩ | ⟨htoks, -⟩
          · refine ⟨?_, fun _ _ => .inr ⟨rfl, by rw [hteof]⟩⟩
            show st.tokens <+: st2.tokens
            rw [htoks]
          · constructor
            · show st.tokens <+: st2.tokens
              rw [htoks]
              exact List.prefix_append _ _
            · refine fun hp _ => .inl ?_
              show st2.pos + 1 ≤ st2.tokens.length
              rw [htoks, hpos, List.length_append]
              simp only [List.length_singleton]
              omega

/-- Witness for `stream_op_invariant`: one `NextToken` on the source
`"a"` grows the cache from empty to one identifier token and keeps
`pos <= len(tokens)`. -/
theorem stream_op_invariant_witness :
    (mkLexer "a").tokens <+:
        (⟨"a".toList, 1, false, [⟨.ident, ['a'], 0⟩], 1⟩ : TokStream).tokens ∧
      ((⟨"a".toList, 1, false, [⟨.ident, ['a'], 0⟩], 1⟩ : TokStream).pos ≤
          (⟨"a".toList, 1, false, [⟨.ident, ['a'], 0⟩], 1⟩ :
            TokStream).tokens.length ∨
        LexOp.next = LexOp.next ∧
          (some ⟨.ident, ['a'], 0⟩ : Option Token) = some eofToken) := by
  have h := stream_op_invariant (mkLexer "a") .next (some ⟨.ident, ['a'], 0⟩)
    ⟨"a".toList, 1, false, [⟨.ident, ['a'], 0⟩], 1⟩ rfl
  exact ⟨h.1, h.2 (by decide) (fun p hp => nomatch hp)⟩

/-- Claim C10: every `Number` token's `Start` field is the offset one past
the token's last character (first-character offset plus text length — the
token's text occupies `[start - len, start)` in the source), while every
`Ident` and `Byte` token's `Start` is its first character's offset (the
text occupies `[start, start + len)`), and every `QuotedValue` token's
`Start` is the offset of its opening quote character. -/
theorem token_start_offsets (st : TokStream) (tok : Token) (st' : TokStream)
    (h : readToken st = .ok (tok, st')) :
    (tok.id = .number → tok.text.length ≤ tok.start ∧
      (st.src.drop (tok.start - tok.text.length)).take tok.text.length =
        tok.text) ∧
    (tok.id = .ident →
      (st.src.drop tok.start).take tok.text.length = tok.text) ∧
    (tok.id = .byte →
      (st.src.drop tok.start).take tok.text.length = tok.text) ∧
    (tok.id = .value →
      st.src[tok.start]? = some '\'' ∨ st.src[tok.start]? = some '"') := by
  unfold readToken at h
  cases heq : readTokenGo st.ignoreSpaces (st.src.drop st.lexPos) st.lexPos with
  | error e => rw [heq] at h; cases h
  | ok pr =>
    obtain ⟨otk, p1⟩ := pr
    rw [heq] at h
    cases otk with
    | none =>
      cases h
      exact ⟨(fun hh => nomatch hh), (fun hh => nomatch hh),
        (fun hh => nomatch hh), (fun hh => nomatch hh)⟩
    | some tp =>
      obtain ⟨tk, q⟩ := tp
      cases h
      exact (readTokenGo_chars st.src st.ignoreSpaces
        (st.src.drop st.lexPos) st.lexPos tok q p1 rfl heq).2

/-- Witness for `token_start_offsets`: lexing `"12.5"` yields the `Number`
token with text `12.5` and `Start = 4`, one past its last character. -/
theorem token_start_offsets_witness :
    (['1', '2', '.', '5'] : List Char).length ≤ 4 ∧
      ((mkLexer "12.5").src.drop
          (4 - (['1', '2', '.', '5'] : List Char).length)).take
        (['1', '2', '.', '5'] : List Char).length = ['1', '2', '.', '5'] :=
  (token_start_offsets (mkLexer "12.5") ⟨.number, ['1', '2', '.', '5'], 4⟩
    ⟨"12.5".toList, 4, false, [⟨.number, ['1', '2', '.', '5'], 4⟩], 0⟩ rfl).1 rfl
